import Mathlib

/-!
Verification development for the tacktile repository, a local-first bookmarking
application. The embedding covers:

* the canonical and derived data model (src/types.ts);
* the IndexedDB-backed entity store (src/db.ts): boards, bookmarks, metadata and
  thumbnail regions, keyed object stores with a boardId index on bookmarks;
* the metadata enrichment write paths (src/metadata.ts);
* the transport codec and share/import orchestration (src/share.ts): JSON
  serialization, compression, base64url encoding, the size budget, and the
  sequence of writes performed by an import.

Modeling conventions. IndexedDB object stores are key-ordered maps; we model
each region as a list kept sorted by its key. Record identifiers come from
crypto.randomUUID, whose string values are linearly ordered by the IndexedDB
key comparison; we model identifiers as natural numbers and pass the generated
identifiers in explicitly (an oracle argument), as we do for Date.now
timestamps. Functions that the source implements with thrown exceptions are
embedded with Except; state-changing operations thread the Store value
explicitly, and an operation that throws after performing writes returns the
partially written store, exactly as the IndexedDB state would persist.
Platform primitives used by the source (btoa, atob, the WHATWG URL check, the
deflate-raw compression streams, JSON.stringify and JSON.parse) are not part of
the repository; they are embedded from their platform specifications where
tractable and abstracted behind stated contracts where not, as marked on each
definition.
-/

set_option maxRecDepth 100000

namespace Tacktile

abbrev Id := Nat

abbrev Timestamp := Nat

/-- Canonical board record (src/types.ts). -/
structure Board where
  id : Id
  name : String
  createdAt : Timestamp
deriving DecidableEq

/-- Canonical bookmark record (src/types.ts); notes and tags are optional. -/
structure Bookmark where
  id : Id
  url : String
  boardId : Id
  addedAt : Timestamp
  notes : Option String
  tags : Option (List String)
deriving DecidableEq

/-- Derived metadata record (src/types.ts), keyed by bookmarkId. -/
structure BookmarkMetadata where
  bookmarkId : Id
  title : Option String
  siteName : Option String
  faviconUrl : Option String
  ogImageUrl : Option String
  fetchedAt : Timestamp
  etag : Option String
deriving DecidableEq

/-- Derived thumbnail record (src/types.ts); the Blob is a byte list. -/
structure BookmarkThumbnail where
  bookmarkId : Id
  blob : List Nat
  mimeType : String
  generatedAt : Timestamp
deriving DecidableEq

/-- Export form of a bookmark (src/types.ts ExportBookmark). -/
structure ExportBookmark where
  url : String
  notes : Option String
  tags : Option (List String)
deriving DecidableEq

/-- Export payload (src/types.ts ExportPayload). The version discriminant is
fixed to 1 by the TypeScript type; decoded payloads may carry any number. -/
structure ExportPayload where
  name : String
  bookmarks : List ExportBookmark
  version : Nat
deriving DecidableEq

/-- The four IndexedDB object stores created in src/db.ts openDB: canonical
regions boards and bookmarks, derived regions metadata and thumbnails. Each
list is kept sorted by the key of its store (id, id, bookmarkId, bookmarkId),
matching the key order of IndexedDB records. -/
structure Store where
  boards : List Board
  bookmarks : List Bookmark
  metadata : List BookmarkMetadata
  thumbnails : List BookmarkThumbnail
deriving DecidableEq

def emptyStore : Store := ⟨[], [], [], []⟩

/-- Key-ordered insertion into the boards object store. -/
def insBoard (b : Board) : List Board → List Board
  | [] => [b]
  | x :: xs => if b.id ≤ x.id then b :: x :: xs else x :: insBoard b xs

/-- Key-ordered insertion into the bookmarks object store. -/
def insBookmark (b : Bookmark) : List Bookmark → List Bookmark
  | [] => [b]
  | x :: xs => if b.id ≤ x.id then b :: x :: xs else x :: insBookmark b xs

/-- Key-ordered insertion into the metadata object store. -/
def insMeta (m : BookmarkMetadata) : List BookmarkMetadata → List BookmarkMetadata
  | [] => [m]
  | x :: xs => if m.bookmarkId ≤ x.bookmarkId then m :: x :: xs else x :: insMeta m xs

/-- Key-ordered insertion into the thumbnails object store. -/
def insThumb (t : BookmarkThumbnail) : List BookmarkThumbnail → List BookmarkThumbnail
  | [] => [t]
  | x :: xs => if t.bookmarkId ≤ x.bookmarkId then t :: x :: xs else x :: insThumb t xs

/-- db.createBoard: builds the record with a generated id and the current time
and runs store.add, which rejects when the key already exists. -/
def createBoard (name : String) (id : Id) (now : Timestamp) (st : Store) :
    Except String (Board × Store) :=
  if st.boards.any (fun b => b.id == id) then Except.error "ConstraintError"
  else
    let b : Board := ⟨id, name, now⟩
    Except.ok (b, { st with boards := insBoard b st.boards })

/-- db.getBoard: store.get by key, resolving to undefined when absent. -/
def getBoard (id : Id) (st : Store) : Option Board :=
  st.boards.find? (fun b => b.id == id)

/-- db.getAllBoards: store.getAll, in key order. -/
def getAllBoards (st : Store) : List Board := st.boards

/-- db.createBookmark: builds the record, including notes and tags exactly as
passed (possibly absent), and runs store.add, which rejects on an existing key.
The source performs no URL validation here. -/
def createBookmark (url : String) (boardId : Id) (notes : Option String)
    (tags : Option (List String)) (id : Id) (now : Timestamp) (st : Store) :
    Except String (Bookmark × Store) :=
  if st.bookmarks.any (fun b => b.id == id) then Except.error "ConstraintError"
  else
    let b : Bookmark := ⟨id, url, boardId, now, notes, tags⟩
    Except.ok (b, { st with bookmarks := insBookmark b st.bookmarks })

/-- db.getBookmark: store.get by key. -/
def getBookmark (id : Id) (st : Store) : Option Bookmark :=
  st.bookmarks.find? (fun b => b.id == id)

/-- db.getBookmarksByBoard: index.getAll on the boardId index. IndexedDB
returns index records sorted by index key and then by primary key, which on an
id-sorted record list is its filter by the board. -/
def getBookmarksByBoard (boardId : Id) (st : Store) : List Bookmark :=
  st.bookmarks.filter (fun b => b.boardId == boardId)

/-- db.deleteMetadata: store.delete by key, a no-op when absent. -/
def deleteMetadata (bookmarkId : Id) (st : Store) : Store :=
  { st with metadata := st.metadata.filter (fun m => m.bookmarkId != bookmarkId) }

/-- db.deleteThumbnail: store.delete by key, a no-op when absent. -/
def deleteThumbnail (bookmarkId : Id) (st : Store) : Store :=
  { st with thumbnails := st.thumbnails.filter (fun t => t.bookmarkId != bookmarkId) }

/-- db.deleteBookmark: deletes the associated metadata and thumbnail records,
then deletes the bookmark itself. -/
def deleteBookmark (id : Id) (st : Store) : Store :=
  let st1 := deleteMetadata id st
  let st2 := deleteThumbnail id st1
  { st2 with bookmarks := st2.bookmarks.filter (fun b => b.id != id) }

/-- db.deleteBoard: deletes every bookmark listed for the board (each cascading
to its metadata and thumbnail), then deletes the board record. -/
def deleteBoard (id : Id) (st : Store) : Store :=
  let st1 := (getBookmarksByBoard id st).foldl (fun s b => deleteBookmark b.id s) st
  { st1 with boards := st1.boards.filter (fun b => b.id != id) }

/-- db.saveMetadata: store.put keyed by bookmarkId, replacing any existing
record; performs no check that the owning bookmark exists. -/
def saveMetadata (m : BookmarkMetadata) (st : Store) : Store :=
  { st with metadata :=
      insMeta m (st.metadata.filter (fun x => x.bookmarkId != m.bookmarkId)) }

/-- db.getMetadata: store.get by key. -/
def getMetadata (bookmarkId : Id) (st : Store) : Option BookmarkMetadata :=
  st.metadata.find? (fun m => m.bookmarkId == bookmarkId)

/-- db.saveThumbnail: store.put keyed by bookmarkId. -/
def saveThumbnail (t : BookmarkThumbnail) (st : Store) : Store :=
  { st with thumbnails :=
      insThumb t (st.thumbnails.filter (fun x => x.bookmarkId != t.bookmarkId)) }

/-- db.getThumbnail: store.get by key. -/
def getThumbnail (bookmarkId : Id) (st : Store) : Option BookmarkThumbnail :=
  st.thumbnails.find? (fun t => t.bookmarkId == bookmarkId)

/-- db.clearCache: clears both derived regions, leaving canonical data. -/
def clearCache (st : Store) : Store :=
  { st with metadata := [], thumbnails := [] }

/-- metadata.ts saveFallbackMetadata: writes a favicon-only metadata record
through db.saveMetadata unless a metadata record already exists. It checks only
for existing metadata, not for the owning bookmark. -/
def saveFallbackMetadata (bookmarkId : Id) (faviconUrl : String) (now : Timestamp)
    (st : Store) : Store :=
  match getMetadata bookmarkId st with
  | some _ => st
  | none => saveMetadata ⟨bookmarkId, none, none, some faviconUrl, none, now, none⟩ st

/-- Modelled from the spec: scheme scanning of the WHATWG URL constructor,
which views.ts uses to validate a bookmark URL and which is platform code
absent from the repository; after the leading ASCII-alphabetic character, the
scheme continues with ASCII alphanumerics, plus, minus or dot, and must reach a
colon for the input to parse as an absolute URL. -/
def schemeTail : List Char → Bool
  | [] => false
  | c :: rest =>
    if c = ':' then true
    else if c.isAlpha || c.isDigit || c = '+' || c = '-' || c = '.' then schemeTail rest
    else false

/-- Modelled from the spec: success of new URL(s) on an absolute URL string;
see schemeTail. -/
def urlParses (s : String) : Bool :=
  match s.data with
  | [] => false
  | c :: rest => c.isAlpha && schemeTail rest

/-- Extract the store from a successful create operation, with a default for
the error case; used to build concrete reachable stores. -/
def okStore {α : Type} (r : Except String (α × Store)) (d : Store) : Store :=
  match r with
  | Except.ok (_, st) => st
  | Except.error _ => d

/-- The bookmark deletion loop run by deleteBoard. -/
def foldDel (L : List Bookmark) (st : Store) : Store :=
  L.foldl (fun s b => deleteBookmark b.id s) st

-- =============================================================================
-- Payload construction (share.ts exportBoard and exportToFile)
-- =============================================================================

/-- The bookmark-to-ExportBookmark map from share.ts: url always; notes copied
only when truthy (absent and empty-string notes are both skipped); tags copied
only when present and nonempty. -/
def toExportBookmark (b : Bookmark) : ExportBookmark :=
  { url := b.url
    notes :=
      match b.notes with
      | some s => if s = "" then none else some s
      | none => none
    tags :=
      match b.tags with
      | some ts => if ts.length > 0 then some ts else none
      | none => none }

/-- The ExportPayload built identically by exportBoard and exportToFile. -/
def buildPayload (name : String) (bms : List Bookmark) : ExportPayload :=
  { name := name, bookmarks := bms.map toExportBookmark, version := 1 }

-- =============================================================================
-- Base64 and base64url (share.ts toBase64Url / fromBase64Url over the
-- platform primitives btoa / atob)
-- =============================================================================

/-- Modelled from the spec: the standard base64 alphabet used by btoa and atob,
platform primitives absent from the repository. -/
def sextetChar (n : Nat) : Char :=
  if n < 26 then Char.ofNat (65 + n)
  else if n < 52 then Char.ofNat (97 + (n - 26))
  else if n < 62 then Char.ofNat (48 + (n - 52))
  else if n = 62 then '+'
  else '/'

/-- Modelled from the spec: inverse lookup in the standard base64 alphabet, as
performed by the forgiving-base64 decode behind atob. -/
def charSextet (c : Char) : Option Nat :=
  let n := c.toNat
  if 65 ≤ n ∧ n ≤ 90 then some (n - 65)
  else if 97 ≤ n ∧ n ≤ 122 then some (n - 97 + 26)
  else if 48 ≤ n ∧ n ≤ 57 then some (n - 48 + 52)
  else if c = '+' then some 62
  else if c = '/' then some 63
  else none

/-- Modelled from the spec: grouping of bytes into base64 sextets (btoa). -/
def bytesToSextets : List Nat → List Nat
  | a :: b :: c :: rest =>
    a / 4 :: ((a % 4) * 16 + b / 16) :: ((b % 16) * 4 + c / 64) :: (c % 64) :: bytesToSextets rest
  | [a, b] => [a / 4, (a % 4) * 16 + b / 16, (b % 16) * 4]
  | [a] => [a / 4, (a % 4) * 16]
  | [] => []

/-- Modelled from the spec: regrouping of base64 sextets into bytes, with
leftover bits discarded as in forgiving-base64 decode (atob). -/
def sextetsToBytes : List Nat → List Nat
  | s1 :: s2 :: s3 :: s4 :: rest =>
    (s1 * 4 + s2 / 16) :: ((s2 % 16) * 16 + s3 / 4) :: ((s3 % 4) * 64 + s4) :: sextetsToBytes rest
  | [s1, s2] => [s1 * 4 + s2 / 16]
  | [s1, s2, s3] => [s1 * 4 + s2 / 16, (s2 % 16) * 16 + s3 / 4]
  | _ => []

/-- Modelled from the spec: the padding emitted by btoa for a byte count. -/
def padChars (n : Nat) : List Char :=
  if n % 3 = 1 then ['=', '='] else if n % 3 = 2 then ['='] else []

/-- Modelled from the spec: window.btoa on a byte sequence (each input code
unit below 256), producing standard base64 with padding. -/
def btoaModel (bytes : List Nat) : List Char :=
  (bytesToSextets bytes).map sextetChar ++ padChars bytes.length

/-- Modelled from the spec: the ASCII whitespace that forgiving-base64 decode
removes before decoding. -/
def isB64Ws (c : Char) : Bool :=
  c = ' ' || c = '\t' || c = '\n' || c = '\x0c' || c = '\x0d'

/-- Drop up to k trailing pad characters, working on the reversed list. -/
def dropPads : List Char → Nat → List Char
  | c :: r, k + 1 => if c = '=' then dropPads r k else c :: r
  | l, _ => l

/-- Modelled from the spec: removal of at most two trailing pad characters in
forgiving-base64 decode. -/
def stripPad (l : List Char) : List Char := (dropPads l.reverse 2).reverse

/-- Modelled from the spec: window.atob, the forgiving-base64 decode: remove
ASCII whitespace; when the length is a multiple of four, strip up to two
trailing pads; fail when the remaining length is 1 mod 4 or when any character
is outside the base64 alphabet; otherwise decode sextets to bytes. -/
def atobModel (l : List Char) : Option (List Nat) :=
  let l1 := l.filter (fun c => !isB64Ws c)
  let l2 := if l1.length % 4 = 0 then stripPad l1 else l1
  if l2.length % 4 = 1 then none
  else if l2.all (fun c => (charSextet c).isSome) then
    some (sextetsToBytes (l2.map (fun c => (charSextet c).getD 0)))
  else none

/-- The three regex replacements of share.ts toBase64Url on one character. -/
def b64ToUrlChar (c : Char) : Char :=
  if c = '+' then '-' else if c = '/' then '_' else c

/-- The two regex replacements of share.ts fromBase64Url on one character. -/
def urlToB64Char (c : Char) : Char :=
  if c = '-' then '+' else if c = '_' then '/' else c

/-- share.ts toBase64Url: btoa of the byte string, then replace plus with
minus, slash with underscore, and remove the equals padding. -/
def toBase64Url (bytes : List Nat) : String :=
  String.mk (((btoaModel bytes).map b64ToUrlChar).filter (fun c => c ≠ '='))

/-- share.ts fromBase64Url padding loop: append equals signs until the length
is a multiple of four. -/
def padTo4 (l : List Char) : List Char :=
  l ++ List.replicate ((4 - l.length % 4) % 4) '='

/-- share.ts fromBase64Url: restore the standard alphabet (minus to plus,
underscore to slash; other characters, including plus, slash and equals, pass
through unchanged), pad, then atob to bytes. -/
def fromBase64Url (s : String) : Option (List Nat) :=
  atobModel (padTo4 (s.data.map urlToB64Char))

-- =============================================================================
-- JSON serialization (platform JSON.stringify restricted to ExportPayload)
-- =============================================================================

/-- Modelled from the spec: lowercase hex digit of a value below 16, as used by
the JSON.stringify escape for control characters. -/
def hexDigitChar (n : Nat) : Char :=
  if n < 10 then Char.ofNat (48 + n) else Char.ofNat (87 + n)

/-- Modelled from the spec: hex digit value accepted inside a JSON unicode
escape (digits, lowercase and uppercase letters). -/
def hexVal (c : Char) : Option Nat :=
  let n := c.toNat
  if 48 ≤ n ∧ n ≤ 57 then some (n - 48)
  else if 97 ≤ n ∧ n ≤ 102 then some (n - 87)
  else if 65 ≤ n ∧ n ≤ 70 then some (n - 55)
  else none

/-- Modelled from the spec: the JSON.stringify escape of one character: quote
and backslash are backslash-escaped, the named control characters use their
short escapes, other control characters use a unicode escape, and every other
character is emitted verbatim. -/
def escChar (c : Char) : List Char :=
  if c = '"' then ['\\', '"']
  else if c = '\\' then ['\\', '\\']
  else if c.toNat = 8 then ['\\', 'b']
  else if c.toNat = 9 then ['\\', 't']
  else if c.toNat = 10 then ['\\', 'n']
  else if c.toNat = 12 then ['\\', 'f']
  else if c.toNat = 13 then ['\\', 'r']
  else if c.toNat < 32 then
    ['\\', 'u', '0', '0', hexDigitChar (c.toNat / 16), hexDigitChar (c.toNat % 16)]
  else [c]

/-- JSON string escape of a character sequence. -/
def escStr (cs : List Char) : List Char := cs.flatMap escChar

/-- JSON string literal for a string value, with escaping. -/
def quoteStr (s : String) : List Char := '"' :: escStr s.data ++ ['"']

/-- Comma-separated joining of serialized JSON array elements. -/
def sepJoin : List (List Char) → List Char
  | [] => []
  | [x] => x
  | x :: y :: xs => x ++ ',' :: sepJoin (y :: xs)

/-- JSON array literal of string values (the tags array). -/
def quoteList (ts : List String) : List Char :=
  '[' :: sepJoin (ts.map quoteStr) ++ [']']

/-- Decimal digits of a natural number, fuel-based for computability. -/
def natToChsAux : Nat → Nat → List Char
  | 0, _ => []
  | fuel + 1, n =>
    if n < 10 then [Char.ofNat (48 + n)]
    else natToChsAux fuel (n / 10) ++ [Char.ofNat (48 + n % 10)]

/-- Modelled from the spec: JSON.stringify of a nonnegative integer. -/
def natToChs (n : Nat) : List Char := natToChsAux (n + 1) n

/-- The object key prefixes appearing in the serialized forms; shared between
the serializer and the parser so that both follow the same grammar. -/
def patUrl : List Char := '{' :: (quoteStr "url") ++ [':']

def patNotes : List Char := ',' :: (quoteStr "notes") ++ [':']

def patTags : List Char := ',' :: (quoteStr "tags") ++ [':', '[']

def patName : List Char := '{' :: (quoteStr "name") ++ [':']

def patBookmarks : List Char := ',' :: (quoteStr "bookmarks") ++ [':', '[']

def patVersion : List Char := ',' :: (quoteStr "version") ++ [':']

/-- Modelled from the spec: JSON.stringify of one ExportBookmark object as
built by share.ts: the url field always, then notes when set, then tags when
set, in insertion order and without whitespace. -/
def jsonStringifyBookmark (b : ExportBookmark) : List Char :=
  patUrl ++ quoteStr b.url
    ++ (match b.notes with
        | some s => patNotes ++ quoteStr s
        | none => [])
    ++ (match b.tags with
        | some ts => patTags ++ sepJoin (ts.map quoteStr) ++ [']']
        | none => [])
    ++ ['}']

/-- Modelled from the spec: JSON.stringify of the ExportPayload object built by
share.ts exportBoard, with fields name, bookmarks, version in insertion order
and no whitespace. -/
def jsonStringifyPayload (p : ExportPayload) : String :=
  String.mk (patName ++ quoteStr p.name
    ++ patBookmarks ++ sepJoin (p.bookmarks.map jsonStringifyBookmark)
    ++ ']' :: patVersion ++ natToChs p.version ++ ['}'])

-- =============================================================================
-- JSON parsing (platform JSON.parse composed with the unchecked cast of
-- share.ts, restricted to the ExportPayload grammar)
-- =============================================================================

/-- Match and consume an expected character sequence. -/
def expectChs : List Char → List Char → Option (List Char)
  | [], l => some l
  | p :: ps, c :: cs => if c = p then expectChs ps cs else none
  | _ :: _, [] => none

/-- Modelled from the spec: the JSON string body scanner: plain characters up
to the closing quote, with backslash escapes (quote, backslash, slash, the
named control escapes, and four-digit unicode escapes). -/
def parseStrAux : List Char → Option (List Char × List Char)
  | [] => none
  | c :: rest =>
    if c = '"' then some ([], rest)
    else if c = '\\' then
      match rest with
      | [] => none
      | e :: rest1 =>
        if e = '"' then (parseStrAux rest1).map (fun p => ('"' :: p.1, p.2))
        else if e = '\\' then (parseStrAux rest1).map (fun p => ('\\' :: p.1, p.2))
        else if e = '/' then (parseStrAux rest1).map (fun p => ('/' :: p.1, p.2))
        else if e = 'b' then (parseStrAux rest1).map (fun p => ('\x08' :: p.1, p.2))
        else if e = 't' then (parseStrAux rest1).map (fun p => ('\t' :: p.1, p.2))
        else if e = 'n' then (parseStrAux rest1).map (fun p => ('\n' :: p.1, p.2))
        else if e = 'f' then (parseStrAux rest1).map (fun p => ('\x0c' :: p.1, p.2))
        else if e = 'r' then (parseStrAux rest1).map (fun p => ('\x0d' :: p.1, p.2))
        else if e = 'u' then
          match rest1 with
          | h1 :: h2 :: h3 :: h4 :: rest2 =>
            match hexVal h1, hexVal h2, hexVal h3, hexVal h4 with
            | some a, some b, some c2, some d =>
              (parseStrAux rest2).map
                (fun p => (Char.ofNat (4096 * a + 256 * b + 16 * c2 + d) :: p.1, p.2))
            | _, _, _, _ => none
          | _ => none
        else none
    else (parseStrAux rest).map (fun p => (c :: p.1, p.2))

/-- Parse a JSON string literal. -/
def parseString (l : List Char) : Option (String × List Char) :=
  match l with
  | c :: rest =>
    if c = '"' then (parseStrAux rest).map (fun p => (String.mk p.1, p.2)) else none
  | [] => none

def isDigitCh (c : Char) : Bool := 48 ≤ c.toNat && c.toNat ≤ 57

/-- Accumulate decimal digits. -/
def parseNatAux : Nat → List Char → Nat × List Char
  | acc, [] => (acc, [])
  | acc, c :: rest =>
    if isDigitCh c then parseNatAux (acc * 10 + (c.toNat - 48)) rest else (acc, c :: rest)

/-- Parse a nonnegative JSON integer (the only number shape the ExportPayload
grammar contains). -/
def parseNum : List Char → Option (Nat × List Char)
  | c :: rest => if isDigitCh c then some (parseNatAux (c.toNat - 48) rest) else none
  | [] => none

/-- Parse the continuation of a JSON string array after its first element:
either the closing bracket or a comma and a further string. Fuel bounds the
number of elements; every call site passes at least the input length. -/
def parseTagTailF : Nat → List Char → Option (List String × List Char)
  | _, ']' :: rest => some ([], rest)
  | fuel + 1, ',' :: rest =>
    match parseString rest with
    | some (s, r) => (parseTagTailF fuel r).map (fun p => (s :: p.1, p.2))
    | none => none
  | _, _ => none

/-- Parse a JSON string array body (after the opening bracket). -/
def parseTagListF (fuel : Nat) (l : List Char) : Option (List String × List Char) :=
  match l with
  | ']' :: rest => some ([], rest)
  | _ =>
    match parseString l with
    | some (s, r) => (parseTagTailF fuel r).map (fun p => (s :: p.1, p.2))
    | none => none

/-- Parse the optional tags field and the closing brace of a bookmark object. -/
def parseBkTags (url : String) (notes : Option String) (l : List Char) :
    Option (ExportBookmark × List Char) :=
  match expectChs patTags l with
  | some l1 =>
    match parseTagListF l1.length l1 with
    | none => none
    | some (ts, l2) =>
      match expectChs ['}'] l2 with
      | some l3 => some (⟨url, notes, some ts⟩, l3)
      | none => none
  | none =>
    match expectChs ['}'] l with
    | some l1 => some (⟨url, notes, none⟩, l1)
    | none => none

/-- Parse one bookmark object of the ExportPayload grammar. -/
def parseBookmark (l : List Char) : Option (ExportBookmark × List Char) :=
  match expectChs patUrl l with
  | none => none
  | some l1 =>
    match parseString l1 with
    | none => none
    | some (url, l2) =>
      match expectChs patNotes l2 with
      | some l3 =>
        match parseString l3 with
        | none => none
        | some (nts, l4) => parseBkTags url (some nts) l4
      | none => parseBkTags url none l2

/-- Parse the continuation of the bookmarks array after its first element. -/
def parseBmTailF : Nat → List Char → Option (List ExportBookmark × List Char)
  | _, ']' :: rest => some ([], rest)
  | fuel + 1, ',' :: rest =>
    match parseBookmark rest with
    | some (b, r) => (parseBmTailF fuel r).map (fun p => (b :: p.1, p.2))
    | none => none
  | _, _ => none

/-- Parse the bookmarks array body (after the opening bracket). -/
def parseBmListF (fuel : Nat) (l : List Char) : Option (List ExportBookmark × List Char) :=
  match l with
  | ']' :: rest => some ([], rest)
  | _ =>
    match parseBookmark l with
    | some (b, r) => (parseBmTailF fuel r).map (fun p => (b :: p.1, p.2))
    | none => none

/-- Modelled from the spec: JSON.parse composed with the unchecked ExportPayload
cast performed by share.ts importBoard and importFromFile. The parser follows
exactly the grammar JSON.stringify emits for ExportPayload (the shape every
claim exercises); inputs outside this grammar are modeled as parse failures. -/
def parsePayload (s : String) : Option ExportPayload :=
  match expectChs patName s.data with
  | none => none
  | some l1 =>
    match parseString l1 with
    | none => none
    | some (name, l2) =>
      match expectChs patBookmarks l2 with
      | none => none
      | some l3 =>
        match parseBmListF l3.length l3 with
        | none => none
        | some (bms, l4) =>
          match expectChs patVersion l4 with
          | none => none
          | some l5 =>
            match parseNum l5 with
            | none => none
            | some (v, l6) =>
              match expectChs ['}'] l6 with
              | some [] => some ⟨name, bms, v⟩
              | _ => none

-- =============================================================================
-- The compression codec boundary and the share/import orchestration (share.ts)
-- =============================================================================

/-- Modelled from the spec: the CompressionStream / DecompressionStream pair
with deflate-raw used by share.ts, platform code absent from the repository.
The spec requires a general-purpose lossless byte compressor; the contracts
(byte outputs below 256, decompression inverting compression) are stated as
hypotheses on the theorems that need them. -/
structure Codec where
  compress : String → List Nat
  decompress : List Nat → Option String

/-- share.ts MAX_PAYLOAD_SIZE: maximum encoded payload length. -/
def MAX_PAYLOAD_SIZE : Nat := 8000

/-- The two success shapes of share.ts exportBoard: a share link, or the
too-large outcome carrying the JSON text for the file fallback. -/
inductive ShareResult where
  | link (url : String)
  | tooLarge (json : String)
deriving DecidableEq

/-- share.ts exportBoard: read the board (throwing when absent), list its
bookmarks, build the payload, stringify, compress, base64url-encode; return
the too-large outcome when the encoding exceeds MAX_PAYLOAD_SIZE, else the
share URL. origin stands for window.location.origin plus pathname. -/
def exportBoard (cc : Codec) (origin : String) (boardId : Id) (st : Store) :
    Except String ShareResult :=
  match getBoard boardId st with
  | none => Except.error "Board not found"
  | some board =>
    let json := jsonStringifyPayload (buildPayload board.name (getBookmarksByBoard boardId st))
    let encoded := toBase64Url (cc.compress json)
    if encoded.length > MAX_PAYLOAD_SIZE then Except.ok (ShareResult.tooLarge json)
    else Except.ok (ShareResult.link (origin ++ "#/import/" ++ encoded))

/-- share.ts exportToFile: read the board (throwing when absent) and build the
same payload; the downloaded file body is the two-space pretty JSON.stringify
of this payload, which we model by the payload itself since no claim depends
on the pretty-printed text. -/
def exportToFile (boardId : Id) (st : Store) : Except String ExportPayload :=
  match getBoard boardId st with
  | none => Except.error "Board not found"
  | some board =>
    Except.ok (buildPayload board.name (getBookmarksByBoard boardId st))

/-- The bookmark creation loop shared by importBoard and importFromFile: create
each decoded bookmark in order under the new board; a failure stops the loop
and leaves every earlier write in place. gen k supplies the generated id of the
k-th created record of this import (0 is the board). -/
def importBookmarksLoop :
    List ExportBookmark → Id → (Nat → Id) → Nat → Timestamp → Store →
    Except String Unit × Store
  | [], _, _, _, _, st => (Except.ok (), st)
  | bm :: rest, boardId, gen, k, now, st =>
    match createBookmark bm.url boardId bm.notes bm.tags (gen k) now st with
    | Except.error e => (Except.error e, st)
    | Except.ok (_, st1) => importBookmarksLoop rest boardId gen (k + 1) now st1

/-- The common tail of importBoard and importFromFile: reject versions other
than 1 before any write, create the board, then create each bookmark. -/
def importPayloadBody (data : ExportPayload) (gen : Nat → Id) (now : Timestamp)
    (st : Store) : Except String Id × Store :=
  if data.version ≠ 1 then (Except.error "Unsupported export version", st)
  else
    match createBoard data.name (gen 0) now st with
    | Except.error e => (Except.error e, st)
    | Except.ok (board, st1) =>
      match importBookmarksLoop data.bookmarks board.id gen 1 now st1 with
      | (Except.error e, st2) => (Except.error e, st2)
      | (Except.ok _, st2) => (Except.ok board.id, st2)

/-- share.ts importBoard: base64url-decode, decompress, JSON-parse, then the
version check and the board and bookmark creations. Each decode stage failure
surfaces as the corresponding platform error before any write. -/
def importBoard (cc : Codec) (payload : String) (gen : Nat → Id) (now : Timestamp)
    (st : Store) : Except String Id × Store :=
  match fromBase64Url payload with
  | none => (Except.error "InvalidCharacterError", st)
  | some compressed =>
    match cc.decompress compressed with
    | none => (Except.error "DecompressionError", st)
    | some json =>
      match parsePayload json with
      | none => (Except.error "SyntaxError", st)
      | some data => importPayloadBody data gen now st

/-- share.ts importFromFile: JSON-parse the file text, then the same version
check and creation sequence as importBoard. -/
def importFromFile (text : String) (gen : Nat → Id) (now : Timestamp) (st : Store) :
    Except String Id × Store :=
  match parsePayload text with
  | none => (Except.error "SyntaxError", st)
  | some data => importPayloadBody data gen now st

/-- The encode chain of exportBoard at the payload level: JSON-stringify,
compress, base64url-encode. -/
def encodePayload (cc : Codec) (p : ExportPayload) : String :=
  toBase64Url (cc.compress (jsonStringifyPayload p))

/-- The decode chain of importBoard at the payload level: base64url-decode,
decompress, JSON-parse. -/
def decodePayload (cc : Codec) (s : String) : Option ExportPayload :=
  (fromBase64Url s).bind (fun bytes =>
    (cc.decompress bytes).bind (fun json => parsePayload json))

-- =============================================================================
-- A concrete lossless codec instance for witnesses
-- =============================================================================

/-- Fixed-width byte code of a character sequence: each character becomes four
little-endian base-256 digits of its code point. -/
def enc4Chs : List Char → List Nat
  | [] => []
  | c :: cs =>
    c.toNat % 256 :: (c.toNat / 256 % 256) :: (c.toNat / 65536 % 256) ::
      (c.toNat / 16777216) :: enc4Chs cs

/-- Inverse of enc4Chs on four-byte groups. -/
def dec4 : List Nat → Option (List Char)
  | [] => some []
  | b0 :: b1 :: b2 :: b3 :: rest =>
    (dec4 rest).map (fun cs => Char.ofNat (b0 + 256 * b1 + 65536 * b2 + 16777216 * b3) :: cs)
  | _ => none

/-- A concrete Codec used to instantiate witnesses: a trivially lossless
fixed-width code standing in for the platform deflate-raw pair, whose exact bit
format is irrelevant to every claim. -/
def c0 : Codec where
  compress := fun s => enc4Chs s.data
  decompress := fun l => (dec4 l).map String.mk

-- =============================================================================
-- Concrete inputs used by witnesses and counterexamples
-- =============================================================================

def stC8 : Store :=
  let s1 := okStore (createBoard "B" 5 0 emptyStore) emptyStore
  let s2 := okStore (createBookmark "https://a/" 5 none none 1 1 s1) s1
  let s3 := okStore (createBookmark "https://b/" 5 none none 2 2 s2) s2
  let s4 := saveMetadata ⟨1, some "T", none, none, none, 3, none⟩ s3
  saveThumbnail ⟨1, [0, 1], "image/png", 4⟩ s4

def stC9a : Store := okStore (createBoard "B" 5 0 emptyStore) emptyStore

def stC9b : Store := okStore (createBookmark "https://e/x" 5 none none 7 0 stC9a) stC9a

def stC9c : Store := deleteBookmark 7 stC9b

def stC9d : Store := saveFallbackMetadata 7 "https://e/favicon.ico" 1 stC9c

def bC6 : Bookmark := ⟨1, "https://e/", 5, 0, some "", some []⟩

def bC6w : Bookmark := ⟨2, "https://e/", 5, 0, some "n", none⟩

def stC5z : Store := okStore (createBoard "B" 5 0 emptyStore) emptyStore

def bmC5a : Bookmark := ⟨2, "https://a/", 5, 1, none, none⟩

def bmC5b : Bookmark := ⟨1, "https://b/", 5, 2, none, none⟩

def stC5A : Store := okStore (createBookmark "https://a/" 5 none none 2 1 stC5z) stC5z

def stC5B : Store := okStore (createBookmark "https://b/" 5 none none 1 2 stC5A) stC5A

def pC1 : ExportPayload :=
  ⟨"héllo \"x\"\n",
   [⟨"https://e/a?b=1&c=2", some "n,\"x\t", some ["t1", ""]⟩,
    ⟨"https://e/b", none, none⟩],
   1⟩

def pC2 : ExportPayload :=
  ⟨"B", [⟨"https://a/", none, none⟩, ⟨"https://b/", none, none⟩], 1⟩

def genC2 : Nat → Id := fun k => if k = 0 then 0 else 1

def rC2 : Except String Id × Store :=
  importFromFile (jsonStringifyPayload pC2) genC2 0 emptyStore

def pC3 : ExportPayload := ⟨"ÿa", [], 1⟩

def bytesC3 : List Nat := c0.compress (jsonStringifyPayload pC3)

def e0C3 : String := toBase64Url bytesC3

def e1C3 : String := String.mk (btoaModel bytesC3)

def sC3w : String := encodePayload c0 ⟨"x", [], 2⟩

def stC4 : Store :=
  okStore (createBookmark "https://a/" 5 none none 1 1
    (okStore (createBoard "B" 5 0 emptyStore) emptyStore))
    (okStore (createBoard "B" 5 0 emptyStore) emptyStore)

def pC7 : ExportPayload := ⟨"B", [⟨"not a url", none, none⟩], 1⟩

def rC7 : Except String Id × Store :=
  importFromFile (jsonStringifyPayload pC7) (fun k => k) 0 emptyStore

-- =============================================================================
-- Helper lemmas about the store operations
-- =============================================================================

theorem deleteBookmark_boards (id : Id) (st : Store) :
    (deleteBookmark id st).boards = st.boards := rfl

theorem deleteBookmark_bookmarks (id : Id) (st : Store) :
    (deleteBookmark id st).bookmarks = st.bookmarks.filter (fun b => b.id != id) := rfl

theorem deleteBookmark_metadata (id : Id) (st : Store) :
    (deleteBookmark id st).metadata = st.metadata.filter (fun m => m.bookmarkId != id) := rfl

theorem deleteBookmark_thumbnails (id : Id) (st : Store) :
    (deleteBookmark id st).thumbnails = st.thumbnails.filter (fun t => t.bookmarkId != id) := rfl

theorem foldDel_boards (L : List Bookmark) (st : Store) :
    (foldDel L st).boards = st.boards := by
  induction L generalizing st with
  | nil => rfl
  | cons a L ih => simp [foldDel, List.foldl_cons] at ih ⊢; rw [ih, deleteBookmark_boards]

theorem mem_foldDel_bookmarks {L : List Bookmark} {st : Store} {b : Bookmark}
    (h : b ∈ (foldDel L st).bookmarks) : b ∈ st.bookmarks := by
  induction L generalizing st with
  | nil => exact h
  | cons a L ih =>
    have := @ih (deleteBookmark a.id st) h
    rw [deleteBookmark_bookmarks] at this
    exact List.mem_of_mem_filter this

theorem getBookmark_deleteBookmark_self (id : Id) (st : Store) :
    getBookmark id (deleteBookmark id st) = none := by
  rw [getBookmark, deleteBookmark_bookmarks, List.find?_eq_none]
  intro b hb
  rcases List.mem_filter.mp hb with ⟨-, hne⟩
  simpa using hne

theorem getBookmark_deleteBookmark_none {x : Id} {st : Store}
    (h : getBookmark x st = none) (y : Id) :
    getBookmark x (deleteBookmark y st) = none := by
  rw [getBookmark, deleteBookmark_bookmarks, List.find?_eq_none]
  intro b hb
  exact List.find?_eq_none.mp h b (List.mem_of_mem_filter hb)

theorem getMetadata_deleteBookmark_self (id : Id) (st : Store) :
    getMetadata id (deleteBookmark id st) = none := by
  rw [getMetadata, deleteBookmark_metadata, List.find?_eq_none]
  intro m hm
  rcases List.mem_filter.mp hm with ⟨-, hne⟩
  simpa using hne

theorem getMetadata_deleteBookmark_none {x : Id} {st : Store}
    (h : getMetadata x st = none) (y : Id) :
    getMetadata x (deleteBookmark y st) = none := by
  rw [getMetadata, deleteBookmark_metadata, List.find?_eq_none]
  intro m hm
  exact List.find?_eq_none.mp h m (List.mem_of_mem_filter hm)

theorem getThumbnail_deleteBookmark_self (id : Id) (st : Store) :
    getThumbnail id (deleteBookmark id st) = none := by
  rw [getThumbnail, deleteBookmark_thumbnails, List.find?_eq_none]
  intro t ht
  rcases List.mem_filter.mp ht with ⟨-, hne⟩
  simpa using hne

theorem getThumbnail_deleteBookmark_none {x : Id} {st : Store}
    (h : getThumbnail x st = none) (y : Id) :
    getThumbnail x (deleteBookmark y st) = none := by
  rw [getThumbnail, deleteBookmark_thumbnails, List.find?_eq_none]
  intro t ht
  exact List.find?_eq_none.mp h t (List.mem_of_mem_filter ht)

theorem getBookmark_foldDel_none {x : Id} {st : Store}
    (h : getBookmark x st = none) (L : List Bookmark) :
    getBookmark x (foldDel L st) = none := by
  induction L generalizing st with
  | nil => exact h
  | cons a L ih =>
    exact ih (getBookmark_deleteBookmark_none h a.id)

theorem getMetadata_foldDel_none {x : Id} {st : Store}
    (h : getMetadata x st = none) (L : List Bookmark) :
    getMetadata x (foldDel L st) = none := by
  induction L generalizing st with
  | nil => exact h
  | cons a L ih =>
    exact ih (getMetadata_deleteBookmark_none h a.id)

theorem getThumbnail_foldDel_none {x : Id} {st : Store}
    (h : getThumbnail x st = none) (L : List Bookmark) :
    getThumbnail x (foldDel L st) = none := by
  induction L generalizing st with
  | nil => exact h
  | cons a L ih =>
    exact ih (getThumbnail_deleteBookmark_none h a.id)

theorem getBookmark_foldDel_mem {L : List Bookmark} {b : Bookmark}
    (hb : b ∈ L) (st : Store) : getBookmark b.id (foldDel L st) = none := by
  induction L generalizing st with
  | nil => cases hb
  | cons a L ih =>
    rcases List.mem_cons.mp hb with rfl | hmem
    · exact getBookmark_foldDel_none (getBookmark_deleteBookmark_self b.id st) L
    · exact ih hmem (deleteBookmark a.id st)

theorem getMetadata_foldDel_mem {L : List Bookmark} {b : Bookmark}
    (hb : b ∈ L) (st : Store) : getMetadata b.id (foldDel L st) = none := by
  induction L generalizing st with
  | nil => cases hb
  | cons a L ih =>
    rcases List.mem_cons.mp hb with rfl | hmem
    · exact getMetadata_foldDel_none (getMetadata_deleteBookmark_self b.id st) L
    · exact ih hmem (deleteBookmark a.id st)

theorem getThumbnail_foldDel_mem {L : List Bookmark} {b : Bookmark}
    (hb : b ∈ L) (st : Store) : getThumbnail b.id (foldDel L st) = none := by
  induction L generalizing st with
  | nil => cases hb
  | cons a L ih =>
    rcases List.mem_cons.mp hb with rfl | hmem
    · exact getThumbnail_foldDel_none (getThumbnail_deleteBookmark_self b.id st) L
    · exact ih hmem (deleteBookmark a.id st)

theorem deleteBoard_bookmarks (id : Id) (st : Store) :
    (deleteBoard id st).bookmarks = (foldDel (getBookmarksByBoard id st) st).bookmarks := rfl

theorem deleteBoard_metadata (id : Id) (st : Store) :
    (deleteBoard id st).metadata = (foldDel (getBookmarksByBoard id st) st).metadata := rfl

theorem deleteBoard_thumbnails (id : Id) (st : Store) :
    (deleteBoard id st).thumbnails = (foldDel (getBookmarksByBoard id st) st).thumbnails := rfl

-- =============================================================================
-- Claim C8: cascade delete
-- =============================================================================

/-- Claim C8: for every Board with N bookmarks, deleteBoard removes the Board,
all N of its Bookmarks, and every Metadata and Thumbnail record owned by those
bookmarks; afterwards a get of each removed identifier reports it absent, and
the board lists no bookmarks. -/
theorem deleteBoard_cascade (st : Store) (bid : Id) :
    getBoard bid (deleteBoard bid st) = none ∧
    getBookmarksByBoard bid (deleteBoard bid st) = [] ∧
    ∀ b ∈ getBookmarksByBoard bid st,
      getBookmark b.id (deleteBoard bid st) = none ∧
      getMetadata b.id (deleteBoard bid st) = none ∧
      getThumbnail b.id (deleteBoard bid st) = none := by
  refine ⟨?_, ?_, ?_⟩
  · rw [getBoard, List.find?_eq_none]
    intro b hb
    rcases List.mem_filter.mp hb with ⟨-, hne⟩
    simpa using hne
  · rw [getBookmarksByBoard, List.filter_eq_nil_iff]
    intro b hb
    have hb' : b ∈ (foldDel (getBookmarksByBoard bid st) st).bookmarks := by
      rw [← deleteBoard_bookmarks]; exact hb
    intro hbeq
    have hbid : b.boardId = bid := by simpa using hbeq
    have hmemSt : b ∈ st.bookmarks := mem_foldDel_bookmarks hb'
    have hmemL : b ∈ getBookmarksByBoard bid st := by
      rw [getBookmarksByBoard, List.mem_filter]
      exact ⟨hmemSt, by simpa using hbid⟩
    have hnone : getBookmark b.id (foldDel (getBookmarksByBoard bid st) st) = none :=
      getBookmark_foldDel_mem hmemL st
    have := List.find?_eq_none.mp hnone b hb'
    simp at this
  · intro b hb
    refine ⟨?_, ?_, ?_⟩
    · have hnone := getBookmark_foldDel_mem hb st
      rw [getBookmark] at hnone ⊢
      rw [deleteBoard_bookmarks]
      exact hnone
    · have hnone := getMetadata_foldDel_mem hb st
      rw [getMetadata] at hnone ⊢
      rw [deleteBoard_metadata]
      exact hnone
    · have hnone := getThumbnail_foldDel_mem hb st
      rw [getThumbnail] at hnone ⊢
      rw [deleteBoard_thumbnails]
      exact hnone

/-- Witness for C8 at the concrete store stC8. -/
theorem deleteBoard_cascade_witness :
    getBoard 5 (deleteBoard 5 stC8) = none ∧
    getBookmark 1 (deleteBoard 5 stC8) = none ∧
    getMetadata 1 (deleteBoard 5 stC8) = none ∧
    getThumbnail 1 (deleteBoard 5 stC8) = none := by
  have h := deleteBoard_cascade stC8 5
  have hmem : (⟨1, "https://a/", 5, 1, none, none⟩ : Bookmark) ∈ getBookmarksByBoard 5 stC8 := by
    decide
  have hb := h.2.2 _ hmem
  exact ⟨h.1, hb.1, hb.2.1, hb.2.2⟩

-- =============================================================================
-- Claim C9: derived records must not outlive their owner (code bug)
-- =============================================================================

/-- Claim C9 is violated by the code: after bookmark 7 is deleted (removing its
metadata), a late-arriving enrichment write through saveFallbackMetadata and
db.saveMetadata re-creates a Metadata record for identifier 7 even though no
owning Bookmark exists; the write does not no-op. -/
theorem saveMetadata_resurrects_deleted_owner :
    getBookmark 7 stC9c = none ∧
    getMetadata 7 stC9c = none ∧
    getMetadata 7 stC9d =
      some ⟨7, none, none, some "https://e/favicon.ico", none, 1, none⟩ ∧
    getBookmark 7 stC9d = none := by decide

-- =============================================================================
-- Claim C6: optional-field omission in the export payload (corrected)
-- =============================================================================

/-- Counterexample to claim C6 as stated: a source bookmark on which notes and
tags are present but empty is exported with both fields omitted, so omission is
not equivalent to absence on the source. -/
theorem exportBookmark_omits_present_empty_fields :
    bC6.notes = some "" ∧ bC6.tags = some [] ∧
    (toExportBookmark bC6).notes = none ∧ (toExportBookmark bC6).tags = none := by
  decide

/-- Claim C6 (amended): in the payload built by exportBoard and exportToFile, a
bookmark field is omitted exactly when it is absent or empty on the source
bookmark (empty-string notes, empty tags list); an included field always equals
the source value verbatim and is nonempty, so no default value or null leaks
into the payload. -/
theorem exportBookmark_field_omission (b : Bookmark) :
    ((toExportBookmark b).url = b.url) ∧
    ((toExportBookmark b).notes = none ↔ b.notes = none ∨ b.notes = some "") ∧
    (∀ s, (toExportBookmark b).notes = some s → b.notes = some s ∧ s ≠ "") ∧
    ((toExportBookmark b).tags = none ↔ b.tags = none ∨ b.tags = some []) ∧
    (∀ ts, (toExportBookmark b).tags = some ts → b.tags = some ts ∧ ts ≠ []) ∧
    (∀ name bms, (buildPayload name bms).name = name ∧
      (buildPayload name bms).bookmarks = bms.map toExportBookmark) := by
  refine ⟨rfl, ?_, ?_, ?_, ?_, fun name bms => ⟨rfl, rfl⟩⟩
  · cases hn : b.notes with
    | none => simp [toExportBookmark, hn]
    | some s =>
      by_cases hs : s = "" <;> simp [toExportBookmark, hn, hs]
  · intro s hs
    cases hn : b.notes with
    | none => simp [toExportBookmark, hn] at hs
    | some v =>
      by_cases hv : v = ""
      · simp [toExportBookmark, hn, hv] at hs
      · simp [toExportBookmark, hn, hv] at hs
        subst hs
        exact ⟨rfl, hv⟩
  · cases ht : b.tags with
    | none => simp [toExportBookmark, ht]
    | some ts =>
      rcases ts with - | ⟨t, ts⟩ <;> simp [toExportBookmark, ht]
  · intro ts hts
    cases ht : b.tags with
    | none => simp [toExportBookmark, ht] at hts
    | some vs =>
      rcases vs with - | ⟨v, vs⟩
      · simp [toExportBookmark, ht] at hts
      · simp [toExportBookmark, ht] at hts
        subst hts
        simp

/-- Witness for the amended C6 theorem at a concrete bookmark. -/
theorem exportBookmark_field_omission_witness :
    bC6w.notes = some "n" ∧ ("n" : String) ≠ "" :=
  (exportBookmark_field_omission bC6w).2.2.1 "n" rfl

-- =============================================================================
-- Claim C5: listing order (corrected)
-- =============================================================================

/-- Counterexample to claim C5 as stated: bookmark bmC5a is created before
bmC5b on board 5, but because crypto.randomUUID keys are not monotone in
creation time (here the ids 2 then 1), the IndexedDB boardId index returns the
bookmarks in key order, not insertion order. -/
theorem getBookmarksByBoard_not_insertion_order :
    createBookmark "https://a/" 5 none none 2 1 stC5z = Except.ok (bmC5a, stC5A) ∧
    createBookmark "https://b/" 5 none none 1 2 stC5A = Except.ok (bmC5b, stC5B) ∧
    getBookmarksByBoard 5 stC5B = [bmC5b, bmC5a] ∧
    getBookmarksByBoard 5 stC5B ≠ [bmC5a, bmC5b] := by
  refine ⟨rfl, rfl, rfl, ?_⟩
  decide

/-- Claim C5 (amended): getBookmarksByBoard returns exactly the bookmarks of
the board, in ascending bookmark-id order (the IndexedDB index order). This
order is deterministic in the store contents, hence stable within a session,
but it is the id order, not the insertion order, so a board exported and
re-imported (receiving fresh random ids) need not list its bookmarks in the
original order. -/
theorem getBookmarksByBoard_sorted_by_id (st : Store) (bid : Id)
    (h : st.bookmarks.Pairwise (fun a b => a.id < b.id)) :
    (getBookmarksByBoard bid st).Pairwise (fun a b => a.id < b.id) ∧
    ∀ b : Bookmark, b ∈ getBookmarksByBoard bid st ↔ b ∈ st.bookmarks ∧ b.boardId = bid := by
  constructor
  · exact h.filter _
  · intro b
    rw [getBookmarksByBoard, List.mem_filter]
    simp

/-- Witness for the amended C5 theorem at the concrete store stC5B. -/
theorem getBookmarksByBoard_sorted_by_id_witness :
    (getBookmarksByBoard 5 stC5B).Pairwise (fun a b => a.id < b.id) :=
  (getBookmarksByBoard_sorted_by_id stC5B 5 (by decide)).1

-- =============================================================================
-- Base64 round trip
-- =============================================================================

/-- All the alphabet facts the round trip needs, checked value by value. -/
theorem sextetChar_facts : ∀ n : Fin 64,
    charSextet (sextetChar n.val) = some n.val ∧
    isB64Ws (sextetChar n.val) = false ∧
    sextetChar n.val ≠ '=' ∧
    urlToB64Char (b64ToUrlChar (sextetChar n.val)) = sextetChar n.val ∧
    b64ToUrlChar (sextetChar n.val) ≠ '=' ∧
    isB64Ws (b64ToUrlChar (sextetChar n.val)) = false := by decide

theorem sextetsToBytes_bytesToSextets (l : List Nat) (h : ∀ b ∈ l, b < 256) :
    sextetsToBytes (bytesToSextets l) = l := by
  induction l using bytesToSextets.induct with
  | case1 a b c rest ih =>
    have ha : a < 256 := h a (by simp)
    have hb : b < 256 := h b (by simp)
    have hc : c < 256 := h c (by simp)
    simp only [bytesToSextets, sextetsToBytes, List.cons.injEq]
    refine ⟨by omega, by omega, by omega, ih (fun x hx => h x (by simp [hx]))⟩
  | case2 a b =>
    have ha : a < 256 := h a (by simp)
    have hb : b < 256 := h b (by simp)
    simp only [bytesToSextets, sextetsToBytes, List.cons.injEq]
    refine ⟨by omega, by omega, trivial⟩
  | case3 a =>
    have ha : a < 256 := h a (by simp)
    simp only [bytesToSextets, sextetsToBytes, List.cons.injEq]
    refine ⟨by omega, trivial⟩
  | case4 => rfl

theorem bytesToSextets_lt (l : List Nat) (h : ∀ b ∈ l, b < 256) :
    ∀ s ∈ bytesToSextets l, s < 64 := by
  induction l using bytesToSextets.induct with
  | case1 a b c rest ih =>
    have ha : a < 256 := h a (by simp)
    have hb : b < 256 := h b (by simp)
    have hc : c < 256 := h c (by simp)
    intro s hs
    simp only [bytesToSextets, List.mem_cons] at hs
    rcases hs with rfl | rfl | rfl | rfl | hs
    · omega
    · omega
    · omega
    · omega
    · exact ih (fun x hx => h x (by simp [hx])) s hs
  | case2 a b =>
    have ha : a < 256 := h a (by simp)
    have hb : b < 256 := h b (by simp)
    intro s hs
    simp only [bytesToSextets, List.mem_cons] at hs
    rcases hs with rfl | rfl | rfl | hs
    · omega
    · omega
    · omega
    · cases hs
  | case3 a =>
    have ha : a < 256 := h a (by simp)
    intro s hs
    simp only [bytesToSextets, List.mem_cons] at hs
    rcases hs with rfl | rfl | hs
    · omega
    · omega
    · cases hs
  | case4 => intro s hs; cases hs

theorem bytesToSextets_length (l : List Nat) :
    (bytesToSextets l).length = l.length + (l.length + 2) / 3 := by
  induction l using bytesToSextets.induct with
  | case1 a b c rest ih => simp only [bytesToSextets, List.length_cons] at ih ⊢; omega
  | case2 a b => simp [bytesToSextets]
  | case3 a => simp [bytesToSextets]
  | case4 => rfl

theorem dropPads_no_pad (l : List Char) (hl : ∀ c ∈ l, c ≠ '=') (k : Nat) :
    dropPads l k = l := by
  cases l with
  | nil => cases k <;> rfl
  | cons c r =>
    cases k with
    | zero => rfl
    | succ k =>
      have : c ≠ '=' := hl c (by simp)
      simp [dropPads, this]

theorem stripPad_append (X pad : List Char) (hX : ∀ c ∈ X, c ≠ '=')
    (hpad : pad = [] ∨ pad = ['='] ∨ pad = ['=', '=']) :
    stripPad (X ++ pad) = X := by
  have hXr : ∀ c ∈ X.reverse, c ≠ '=' := by
    intro c hc; exact hX c (List.mem_reverse.mp hc)
  rcases hpad with rfl | rfl | rfl
  · simp only [stripPad, List.append_nil]
    rw [dropPads_no_pad X.reverse hXr, List.reverse_reverse]
  · simp only [stripPad, List.reverse_append, List.reverse_cons, List.reverse_nil,
      List.nil_append, List.cons_append]
    show (dropPads ('=' :: X.reverse) 2).reverse = X
    rw [show dropPads ('=' :: X.reverse) 2 = dropPads X.reverse 1 from by simp [dropPads]]
    rw [dropPads_no_pad X.reverse hXr, List.reverse_reverse]
  · simp only [stripPad, List.reverse_append, List.reverse_cons, List.reverse_nil,
      List.nil_append, List.cons_append]
    show (dropPads ('=' :: '=' :: X.reverse) 2).reverse = X
    rw [show dropPads ('=' :: '=' :: X.reverse) 2 = dropPads X.reverse 0 from by
      simp [dropPads]]
    rw [dropPads_no_pad X.reverse hXr, List.reverse_reverse]

theorem padChars_cases (n : Nat) :
    padChars n = [] ∨ padChars n = ['='] ∨ padChars n = ['=', '='] := by
  unfold padChars
  by_cases h1 : n % 3 = 1
  · simp [h1]
  · by_cases h2 : n % 3 = 2 <;> simp [h1, h2]

theorem length_mod3_cases (n : Nat) : n % 3 = 0 ∨ n % 3 = 1 ∨ n % 3 = 2 := by omega

theorem atobModel_btoaModel (l : List Nat) (h : ∀ b ∈ l, b < 256) :
    atobModel (btoaModel l) = some l := by
  have hS : ∀ s ∈ bytesToSextets l, s < 64 := bytesToSextets_lt l h
  have hmap : ∀ c ∈ (bytesToSextets l).map sextetChar,
      isB64Ws c = false ∧ c ≠ '=' ∧ (charSextet c).isSome := by
    intro c hc
    rcases List.mem_map.mp hc with ⟨s, hs, rfl⟩
    have hfacts := sextetChar_facts ⟨s, hS s hs⟩
    exact ⟨hfacts.2.1, hfacts.2.2.1, by rw [hfacts.1]; rfl⟩
  have hpadc := padChars_cases l.length
  have hwspad : ∀ c ∈ padChars l.length, isB64Ws c = false := by
    intro c hc
    rcases hpadc with hp | hp | hp
    · rw [hp] at hc; simp at hc
    · rw [hp] at hc; simp at hc; rcases hc with rfl; decide
    · rw [hp] at hc
      simp at hc
      subst hc
      decide
  have hfilter :
      ((bytesToSextets l).map sextetChar ++ padChars l.length).filter (fun c => !isB64Ws c)
        = (bytesToSextets l).map sextetChar ++ padChars l.length := by
    rw [List.filter_eq_self]
    intro c hc
    rcases List.mem_append.mp hc with hc | hc
    · simp [(hmap c hc).1]
    · simp [hwspad c hc]
  simp only [atobModel, btoaModel, hfilter]
  have hlenS := bytesToSextets_length l
  have h3 := length_mod3_cases l.length
  have hlen4 :
      ((bytesToSextets l).map sextetChar ++ padChars l.length).length % 4 = 0 := by
    rw [List.length_append, List.length_map]
    rcases h3 with h | h | h <;> simp [padChars, h] <;> omega
  rw [if_pos hlen4]
  have hstrip : stripPad ((bytesToSextets l).map sextetChar ++ padChars l.length)
      = (bytesToSextets l).map sextetChar := by
    exact stripPad_append _ _ (fun c hc => (hmap c hc).2.1) hpadc
  rw [hstrip]
  have hlen1 : ((bytesToSextets l).map sextetChar).length % 4 ≠ 1 := by
    rw [List.length_map]
    rcases h3 with h | h | h <;> omega
  rw [if_neg hlen1]
  have hall : ((bytesToSextets l).map sextetChar).all (fun c => (charSextet c).isSome) = true := by
    rw [List.all_eq_true]
    intro c hc
    exact (hmap c hc).2.2
  rw [if_pos hall]
  have hmapdec : ((bytesToSextets l).map sextetChar).map (fun c => (charSextet c).getD 0)
      = bytesToSextets l := by
    rw [List.map_map]
    have : ∀ s ∈ bytesToSextets l, ((fun c => (charSextet c).getD 0) ∘ sextetChar) s = s := by
      intro s hs
      have hfacts := sextetChar_facts ⟨s, hS s hs⟩
      simp [Function.comp, hfacts.1]
    rw [List.map_congr_left this]
    simp
  rw [hmapdec, sextetsToBytes_bytesToSextets l h]

theorem fromBase64Url_toBase64Url (l : List Nat) (h : ∀ b ∈ l, b < 256) :
    fromBase64Url (toBase64Url l) = some l := by
  have hS : ∀ s ∈ bytesToSextets l, s < 64 := bytesToSextets_lt l h
  have hpadc := padChars_cases l.length
  -- the url-safe text is exactly the sextet characters, url-mapped
  have hmappad : (padChars l.length).map b64ToUrlChar = padChars l.length := by
    rcases hpadc with hp | hp | hp <;> rw [hp] <;> rfl
  have hfilterS :
      (((bytesToSextets l).map sextetChar).map b64ToUrlChar).filter (fun c => c ≠ '=')
        = ((bytesToSextets l).map sextetChar).map b64ToUrlChar := by
    rw [List.filter_eq_self]
    intro c hc
    rcases List.mem_map.mp hc with ⟨c1, hc1, rfl⟩
    rcases List.mem_map.mp hc1 with ⟨s, hs, rfl⟩
    have hfacts := sextetChar_facts ⟨s, hS s hs⟩
    simpa using hfacts.2.2.2.2.1
  have hfilterPad : (padChars l.length).filter (fun c => c ≠ '=') = [] := by
    rcases hpadc with hp | hp | hp <;> rw [hp] <;> rfl
  have hurl : (toBase64Url l).data
      = ((bytesToSextets l).map sextetChar).map b64ToUrlChar := by
    show (((btoaModel l).map b64ToUrlChar).filter (fun c => c ≠ '=')) = _
    unfold btoaModel
    rw [List.map_append, hmappad, List.filter_append, hfilterPad, List.append_nil,
      hfilterS]
  unfold fromBase64Url
  rw [hurl]
  have hback : (((bytesToSextets l).map sextetChar).map b64ToUrlChar).map urlToB64Char
      = (bytesToSextets l).map sextetChar := by
    rw [List.map_map, List.map_map]
    apply List.map_congr_left
    intro s hs
    have hfacts := sextetChar_facts ⟨s, hS s hs⟩
    simpa [Function.comp] using hfacts.2.2.2.1
  rw [hback]
  -- the padding loop restores exactly the btoa padding
  have hlenS := bytesToSextets_length l
  have h3 := length_mod3_cases l.length
  have hpadeq : padTo4 ((bytesToSextets l).map sextetChar) = btoaModel l := by
    unfold padTo4 btoaModel
    congr 1
    rw [List.length_map]
    rcases h3 with hm | hm | hm
    · have hk : (4 - (bytesToSextets l).length % 4) % 4 = 0 := by omega
      rw [hk]
      simp [padChars, hm]
    · have hk : (4 - (bytesToSextets l).length % 4) % 4 = 2 := by omega
      rw [hk]
      simp [padChars, hm, List.replicate]
    · have hk : (4 - (bytesToSextets l).length % 4) % 4 = 1 := by omega
      rw [hk]
      simp [padChars, hm, List.replicate]
  rw [hpadeq]
  exact atobModel_btoaModel l h

-- =============================================================================
-- JSON round trip: string escapes
-- =============================================================================

theorem hexVal_hexDigitChar : ∀ m : Fin 16, hexVal (hexDigitChar m.val) = some m.val := by
  decide

theorem psa_close (X : List Char) : parseStrAux ('"' :: X) = some ([], X) := by
  rw [parseStrAux.eq_def]; simp

theorem psa_q (X : List Char) :
    parseStrAux ('\\' :: '"' :: X) = (parseStrAux X).map (fun p => ('"' :: p.1, p.2)) := by
  rw [parseStrAux.eq_def]; simp

theorem psa_bs (X : List Char) :
    parseStrAux ('\\' :: '\\' :: X) = (parseStrAux X).map (fun p => ('\\' :: p.1, p.2)) := by
  rw [parseStrAux.eq_def]; simp

theorem psa_b (X : List Char) :
    parseStrAux ('\\' :: 'b' :: X) = (parseStrAux X).map (fun p => ('\x08' :: p.1, p.2)) := by
  rw [parseStrAux.eq_def]; simp

theorem psa_t (X : List Char) :
    parseStrAux ('\\' :: 't' :: X) = (parseStrAux X).map (fun p => ('\t' :: p.1, p.2)) := by
  rw [parseStrAux.eq_def]; simp

theorem psa_n (X : List Char) :
    parseStrAux ('\\' :: 'n' :: X) = (parseStrAux X).map (fun p => ('\n' :: p.1, p.2)) := by
  rw [parseStrAux.eq_def]; simp

theorem psa_f (X : List Char) :
    parseStrAux ('\\' :: 'f' :: X) = (parseStrAux X).map (fun p => ('\x0c' :: p.1, p.2)) := by
  rw [parseStrAux.eq_def]; simp

theorem psa_r (X : List Char) :
    parseStrAux ('\\' :: 'r' :: X) = (parseStrAux X).map (fun p => ('\x0d' :: p.1, p.2)) := by
  rw [parseStrAux.eq_def]; simp

theorem psa_plain (c : Char) (h1 : ¬c = '"') (h2 : ¬c = '\\') (X : List Char) :
    parseStrAux (c :: X) = (parseStrAux X).map (fun p => (c :: p.1, p.2)) := by
  rw [parseStrAux.eq_def]
  simp only [if_neg h1, if_neg h2]

theorem psa_u (h1 h2 h3 h4 : Char) (a b v3 v4 : Nat)
    (e1 : hexVal h1 = some a) (e2 : hexVal h2 = some b)
    (e3 : hexVal h3 = some v3) (e4 : hexVal h4 = some v4) (X : List Char) :
    parseStrAux ('\\' :: 'u' :: h1 :: h2 :: h3 :: h4 :: X) =
      (parseStrAux X).map
        (fun p => (Char.ofNat (4096 * a + 256 * b + 16 * v3 + v4) :: p.1, p.2)) := by
  rw [parseStrAux.eq_def]
  simp [e1, e2, e3, e4]

theorem parseStrAux_esc (cs : List Char) (rest : List Char) :
    parseStrAux (escStr cs ++ '"' :: rest) = some (cs, rest) := by
  induction cs with
  | nil => simp [escStr, psa_close]
  | cons c cs ih =>
    have hstep : escStr (c :: cs) = escChar c ++ escStr cs := by
      simp [escStr]
    rw [hstep, List.append_assoc]
    by_cases g1 : c = '"'
    · subst g1
      rw [show escChar '"' = ['\\', '"'] from rfl]
      simp only [List.cons_append, List.nil_append, psa_q, ih, Option.map_some']
    · by_cases g2 : c = '\\'
      · subst g2
        rw [show escChar '\\' = ['\\', '\\'] from rfl]
        simp only [List.cons_append, List.nil_append, psa_bs, ih, Option.map_some']
      · by_cases g3 : c.toNat = 8
        · have hc : c = '\x08' := by
            have := Char.ofNat_toNat c
            rw [g3] at this
            exact this.symm
          subst hc
          rw [show escChar '\x08' = ['\\', 'b'] from rfl]
          simp only [List.cons_append, List.nil_append, psa_b, ih, Option.map_some']
        · by_cases g4 : c.toNat = 9
          · have hc : c = '\t' := by
              have := Char.ofNat_toNat c
              rw [g4] at this
              exact this.symm
            subst hc
            rw [show escChar '\t' = ['\\', 't'] from rfl]
            simp only [List.cons_append, List.nil_append, psa_t, ih, Option.map_some']
          · by_cases g5 : c.toNat = 10
            · have hc : c = '\n' := by
                have := Char.ofNat_toNat c
                rw [g5] at this
                exact this.symm
              subst hc
              rw [show escChar '\n' = ['\\', 'n'] from rfl]
              simp only [List.cons_append, List.nil_append, psa_n, ih, Option.map_some']
            · by_cases g6 : c.toNat = 12
              · have hc : c = '\x0c' := by
                  have := Char.ofNat_toNat c
                  rw [g6] at this
                  exact this.symm
                subst hc
                rw [show escChar '\x0c' = ['\\', 'f'] from rfl]
                simp only [List.cons_append, List.nil_append, psa_f, ih, Option.map_some']
              · by_cases g7 : c.toNat = 13
                · have hc : c = '\x0d' := by
                    have := Char.ofNat_toNat c
                    rw [g7] at this
                    exact this.symm
                  subst hc
                  rw [show escChar '\x0d' = ['\\', 'r'] from rfl]
                  simp only [List.cons_append, List.nil_append, psa_r, ih, Option.map_some']
                · by_cases g8 : c.toNat < 32
                  · have e1 : escChar c =
                        ['\\', 'u', '0', '0', hexDigitChar (c.toNat / 16),
                          hexDigitChar (c.toNat % 16)] := by
                      unfold escChar
                      rw [if_neg g1, if_neg g2, if_neg g3, if_neg g4, if_neg g5, if_neg g6,
                        if_neg g7, if_pos g8]
                    rw [e1]
                    have hv0 : hexVal '0' = some 0 := by decide
                    have hv1 : hexVal (hexDigitChar (c.toNat / 16)) = some (c.toNat / 16) :=
                      hexVal_hexDigitChar ⟨c.toNat / 16, by omega⟩
                    have hv2 : hexVal (hexDigitChar (c.toNat % 16)) = some (c.toNat % 16) :=
                      hexVal_hexDigitChar ⟨c.toNat % 16, by omega⟩
                    simp only [List.cons_append, List.nil_append]
                    rw [psa_u '0' '0' _ _ 0 0 (c.toNat / 16) (c.toNat % 16) hv0 hv0 hv1 hv2]
                    rw [show (4096 * 0 + 256 * 0 + 16 * (c.toNat / 16) + c.toNat % 16)
                        = c.toNat from by omega]
                    rw [Char.ofNat_toNat]
                    simp only [ih, Option.map_some']
                  · have e1 : escChar c = [c] := by
                      unfold escChar
                      rw [if_neg g1, if_neg g2, if_neg g3, if_neg g4, if_neg g5, if_neg g6,
                        if_neg g7, if_neg g8]
                    rw [e1]
                    simp only [List.cons_append, List.nil_append]
                    rw [psa_plain c g1 g2]
                    simp only [ih, Option.map_some']

theorem parseString_quote (s : String) (rest : List Char) :
    parseString (quoteStr s ++ rest) = some (s, rest) := by
  show parseString ('"' :: escStr s.data ++ ['"'] ++ rest) = some (s, rest)
  have : ('"' :: escStr s.data ++ ['"']) ++ rest = '"' :: (escStr s.data ++ '"' :: rest) := by
    simp
  rw [this]
  show (if '"' = '"' then (parseStrAux (escStr s.data ++ '"' :: rest)).map
      (fun p => (String.mk p.1, p.2)) else none) = some (s, rest)
  rw [if_pos rfl, parseStrAux_esc]
  show some (String.mk s.data, rest) = some (s, rest)
  cases s
  rfl

-- =============================================================================
-- JSON round trip: arrays, objects and the payload
-- =============================================================================

theorem sepJoin_cons (x : List Char) (xs : List (List Char)) :
    sepJoin (x :: xs) = x ++ xs.flatMap (fun z => ',' :: z) := by
  induction xs generalizing x with
  | nil => simp [sepJoin]
  | cons y ys ih => rw [sepJoin, ih y]; simp

theorem expectChs_append (pat rest : List Char) : expectChs pat (pat ++ rest) = some rest := by
  induction pat with
  | nil => rfl
  | cons p ps ih => simp [expectChs, ih]

theorem quoteStr_length_pos (t : String) : 1 ≤ (quoteStr t).length := by
  simp [quoteStr]

theorem flat_quote_length (ts : List String) :
    ts.length ≤ (ts.flatMap (fun t => ',' :: quoteStr t)).length := by
  induction ts with
  | nil => simp
  | cons t ts ih => simp only [List.flatMap_cons, List.length_append, List.length_cons]; omega

theorem sepJoin_quote_length (ts : List String) :
    ts.length ≤ (sepJoin (ts.map quoteStr)).length := by
  cases ts with
  | nil => simp [sepJoin]
  | cons t ts =>
    rw [List.map_cons, sepJoin_cons, List.flatMap_map]
    have h1 := quoteStr_length_pos t
    have h2 := flat_quote_length ts
    simp only [List.length_append, List.length_cons, Function.comp]
    simp only [Function.comp] at h2
    omega

theorem jsonStringifyBookmark_length_pos (b : ExportBookmark) :
    1 ≤ (jsonStringifyBookmark b).length := by
  unfold jsonStringifyBookmark
  simp [patUrl]

theorem flat_bm_length (bs : List ExportBookmark) :
    bs.length ≤ (bs.flatMap (fun b => ',' :: jsonStringifyBookmark b)).length := by
  induction bs with
  | nil => simp
  | cons b bs ih => simp only [List.flatMap_cons, List.length_append, List.length_cons]; omega

theorem sepJoin_bm_length (bs : List ExportBookmark) :
    bs.length ≤ (sepJoin (bs.map jsonStringifyBookmark)).length := by
  cases bs with
  | nil => simp [sepJoin]
  | cons b bs =>
    rw [List.map_cons, sepJoin_cons, List.flatMap_map]
    have h1 := jsonStringifyBookmark_length_pos b
    have h2 := flat_bm_length bs
    simp only [List.length_append, List.length_cons, Function.comp]
    simp only [Function.comp] at h2
    omega

theorem flatMap_map_comma (ts : List String) :
    (ts.map quoteStr).flatMap (fun z => ',' :: z) = ts.flatMap (fun t => ',' :: quoteStr t) := by
  induction ts with
  | nil => rfl
  | cons t ts ih => simp only [List.map_cons, List.flatMap_cons, ih]

theorem parseTagTailF_flat (ts : List String) (rest : List Char) (fuel : Nat)
    (hf : ts.length ≤ fuel) :
    parseTagTailF fuel ((ts.flatMap (fun t => ',' :: quoteStr t)) ++ ']' :: rest)
      = some (ts, rest) := by
  induction ts generalizing fuel rest with
  | nil => simp [parseTagTailF]
  | cons t ts ih =>
    cases fuel with
    | zero => simp only [List.length_cons] at hf; omega
    | succ f =>
      simp only [List.flatMap_cons, List.cons_append, List.append_assoc]
      simp only [parseTagTailF]
      rw [parseString_quote]
      simp only []
      rw [ih rest f (by simp only [List.length_cons] at hf; omega)]
      rfl

theorem parseTagListF_join (ts : List String) (rest : List Char) (fuel : Nat)
    (hf : ts.length ≤ fuel) :
    parseTagListF fuel (sepJoin (ts.map quoteStr) ++ ']' :: rest) = some (ts, rest) := by
  cases ts with
  | nil => simp [sepJoin, parseTagListF]
  | cons t ts =>
    rw [List.map_cons, sepJoin_cons, flatMap_map_comma]
    have hq : (quoteStr t ++ ts.flatMap (fun t => ',' :: quoteStr t)) ++ ']' :: rest
        = '"' :: (escStr t.data
            ++ ('"' :: (ts.flatMap (fun t => ',' :: quoteStr t) ++ ']' :: rest))) := by
      simp [quoteStr]
    rw [hq]
    simp only [parseTagListF]
    rw [show parseString ('"' :: (escStr t.data
          ++ ('"' :: (ts.flatMap (fun t => ',' :: quoteStr t) ++ ']' :: rest))))
      = some (t, ts.flatMap (fun t => ',' :: quoteStr t) ++ ']' :: rest) from by
        rw [show ('"' :: (escStr t.data
            ++ ('"' :: (ts.flatMap (fun t => ',' :: quoteStr t) ++ ']' :: rest))))
          = quoteStr t ++ (ts.flatMap (fun t => ',' :: quoteStr t) ++ ']' :: rest) from by
            simp [quoteStr]]
        exact parseString_quote t _]
    simp only []
    rw [parseTagTailF_flat ts rest fuel (by simp only [List.length_cons] at hf; omega)]
    rfl

theorem patNotes_lit : patNotes = [',', '"', 'n', 'o', 't', 'e', 's', '"', ':'] := by decide

theorem patTags_lit : patTags = [',', '"', 't', 'a', 'g', 's', '"', ':', '['] := by decide

theorem expectChs_patNotes_patTags (r : List Char) :
    expectChs patNotes (patTags ++ r) = none := by
  rw [patNotes_lit, patTags_lit]
  simp [expectChs]

theorem expectChs_patNotes_brace (r : List Char) :
    expectChs patNotes ('}' :: r) = none := by
  rw [patNotes_lit]
  simp [expectChs]

theorem expectChs_patTags_brace (r : List Char) :
    expectChs patTags ('}' :: r) = none := by
  rw [patTags_lit]
  simp [expectChs]

theorem expectChs_brace (r : List Char) : expectChs ['}'] ('}' :: r) = some r := by
  simp [expectChs]

theorem parseBookmark_stringify (b : ExportBookmark) (rest : List Char) :
    parseBookmark (jsonStringifyBookmark b ++ rest) = some (b, rest) := by
  obtain ⟨url, notes, tags⟩ := b
  cases notes with
  | none =>
    cases tags with
    | none =>
      show parseBookmark ((patUrl ++ quoteStr url ++ [] ++ [] ++ ['}']) ++ rest) = _
      rw [show (patUrl ++ quoteStr url ++ [] ++ [] ++ ['}']) ++ rest
        = patUrl ++ (quoteStr url ++ '}' :: rest) from by simp]
      simp only [parseBookmark, expectChs_append, parseString_quote,
        expectChs_patNotes_brace, parseBkTags, expectChs_patTags_brace, expectChs_brace]
    | some ts =>
      show parseBookmark ((patUrl ++ quoteStr url ++ []
        ++ (patTags ++ sepJoin (ts.map quoteStr) ++ [']']) ++ ['}']) ++ rest) = _
      rw [show (patUrl ++ quoteStr url ++ []
          ++ (patTags ++ sepJoin (ts.map quoteStr) ++ [']']) ++ ['}']) ++ rest
        = patUrl ++ (quoteStr url ++ (patTags
            ++ (sepJoin (ts.map quoteStr) ++ (']' :: '}' :: rest)))) from by simp]
      simp only [parseBookmark, expectChs_append, parseString_quote,
        expectChs_patNotes_patTags, parseBkTags]
      rw [show sepJoin (ts.map quoteStr) ++ (']' :: '}' :: rest)
        = sepJoin (ts.map quoteStr) ++ ']' :: ('}' :: rest) from by simp]
      rw [parseTagListF_join ts ('}' :: rest) _ (by
        have h1 := sepJoin_quote_length ts
        simp only [List.length_append, List.length_cons]
        omega)]
      simp only [expectChs_brace]
  | some nts =>
    cases tags with
    | none =>
      show parseBookmark ((patUrl ++ quoteStr url ++ (patNotes ++ quoteStr nts)
        ++ [] ++ ['}']) ++ rest) = _
      rw [show (patUrl ++ quoteStr url ++ (patNotes ++ quoteStr nts) ++ [] ++ ['}']) ++ rest
        = patUrl ++ (quoteStr url ++ (patNotes ++ (quoteStr nts ++ '}' :: rest))) from by simp]
      simp only [parseBookmark, expectChs_append, parseString_quote,
        parseBkTags, expectChs_patTags_brace, expectChs_brace]
    | some ts =>
      show parseBookmark ((patUrl ++ quoteStr url ++ (patNotes ++ quoteStr nts)
        ++ (patTags ++ sepJoin (ts.map quoteStr) ++ [']']) ++ ['}']) ++ rest) = _
      rw [show (patUrl ++ quoteStr url ++ (patNotes ++ quoteStr nts)
          ++ (patTags ++ sepJoin (ts.map quoteStr) ++ [']']) ++ ['}']) ++ rest
        = patUrl ++ (quoteStr url ++ (patNotes ++ (quoteStr nts
            ++ (patTags ++ (sepJoin (ts.map quoteStr) ++ (']' :: '}' :: rest)))))) from by simp]
      simp only [parseBookmark, expectChs_append, parseString_quote, parseBkTags]
      rw [show sepJoin (ts.map quoteStr) ++ (']' :: '}' :: rest)
        = sepJoin (ts.map quoteStr) ++ ']' :: ('}' :: rest) from by simp]
      rw [parseTagListF_join ts ('}' :: rest) _ (by
        have h1 := sepJoin_quote_length ts
        simp only [List.length_append, List.length_cons]
        omega)]
      simp only [expectChs_brace]

theorem flatMap_map_comma_bm (bs : List ExportBookmark) :
    (bs.map jsonStringifyBookmark).flatMap (fun z => ',' :: z)
      = bs.flatMap (fun b => ',' :: jsonStringifyBookmark b) := by
  induction bs with
  | nil => rfl
  | cons b bs ih => simp only [List.map_cons, List.flatMap_cons, ih]

theorem parseBmTailF_flat (bs : List ExportBookmark) (rest : List Char) (fuel : Nat)
    (hf : bs.length ≤ fuel) :
    parseBmTailF fuel ((bs.flatMap (fun b => ',' :: jsonStringifyBookmark b)) ++ ']' :: rest)
      = some (bs, rest) := by
  induction bs generalizing fuel rest with
  | nil => simp [parseBmTailF]
  | cons b bs ih =>
    cases fuel with
    | zero => simp only [List.length_cons] at hf; omega
    | succ f =>
      simp only [List.flatMap_cons, List.cons_append, List.append_assoc]
      simp only [parseBmTailF]
      rw [parseBookmark_stringify]
      simp only []
      rw [ih rest f (by simp only [List.length_cons] at hf; omega)]
      rfl

theorem jsonStringifyBookmark_head (b : ExportBookmark) (r : List Char) :
    jsonStringifyBookmark b ++ r
      = '{' :: ((quoteStr "url" ++ [':'] ++ quoteStr b.url
          ++ (match b.notes with
              | some s => patNotes ++ quoteStr s
              | none => [])
          ++ (match b.tags with
              | some ts => patTags ++ sepJoin (ts.map quoteStr) ++ [']']
              | none => [])
          ++ ['}']) ++ r) := by
  simp [jsonStringifyBookmark, patUrl]

theorem parseBmListF_join (bs : List ExportBookmark) (rest : List Char) (fuel : Nat)
    (hf : bs.length ≤ fuel) :
    parseBmListF fuel (sepJoin (bs.map jsonStringifyBookmark) ++ ']' :: rest)
      = some (bs, rest) := by
  cases bs with
  | nil => simp [sepJoin, parseBmListF]
  | cons b bs =>
    rw [List.map_cons, sepJoin_cons, flatMap_map_comma_bm, List.append_assoc]
    rw [jsonStringifyBookmark_head]
    simp only [parseBmListF]
    rw [show ('{' :: ((quoteStr "url" ++ [':'] ++ quoteStr b.url
          ++ (match b.notes with
              | some s => patNotes ++ quoteStr s
              | none => [])
          ++ (match b.tags with
              | some ts => patTags ++ sepJoin (ts.map quoteStr) ++ [']']
              | none => [])
          ++ ['}']) ++ (bs.flatMap (fun b => ',' :: jsonStringifyBookmark b) ++ ']' :: rest)))
      = jsonStringifyBookmark b
          ++ (bs.flatMap (fun b => ',' :: jsonStringifyBookmark b) ++ ']' :: rest) from
      (jsonStringifyBookmark_head b _).symm]
    rw [parseBookmark_stringify]
    simp only []
    rw [parseBmTailF_flat bs rest fuel (by simp only [List.length_cons] at hf; omega)]
    rfl

theorem natToChs_one : natToChs 1 = ['1'] := by decide

theorem parseNum_one_brace : parseNum ['1', '}'] = some (1, ['}']) := by decide

theorem parsePayload_stringify (p : ExportPayload) (hv : p.version = 1) :
    parsePayload (jsonStringifyPayload p) = some p := by
  obtain ⟨name, bms, v⟩ := p
  simp only at hv
  subst hv
  have hdata : (jsonStringifyPayload ⟨name, bms, 1⟩).data
      = patName ++ (quoteStr name ++ (patBookmarks
        ++ (sepJoin (bms.map jsonStringifyBookmark)
          ++ ']' :: (patVersion ++ (natToChs 1 ++ ['}']))))) := by
    show (patName ++ quoteStr name
      ++ patBookmarks ++ sepJoin (bms.map jsonStringifyBookmark)
      ++ ']' :: patVersion ++ natToChs 1 ++ ['}']) = _
    simp
  simp only [parsePayload, hdata, expectChs_append, parseString_quote]
  rw [parseBmListF_join bms (patVersion ++ (natToChs 1 ++ ['}'])) _ (by
    have h1 := sepJoin_bm_length bms
    simp only [List.length_append, List.length_cons]
    omega)]
  simp only [expectChs_append, natToChs_one]
  rw [show (['1'] : List Char) ++ ['}'] = ['1', '}'] from rfl]
  simp only [parseNum_one_brace]
  rfl

-- =============================================================================
-- The concrete codec instance is lossless
-- =============================================================================

theorem char_toNat_lt (c : Char) : c.toNat < 1114112 := by
  have h := c.valid
  rcases h with h | ⟨h1, h2⟩
  · exact Nat.lt_trans h (by norm_num)
  · exact h2

theorem enc4Chs_lt (cs : List Char) : ∀ b ∈ enc4Chs cs, b < 256 := by
  induction cs with
  | nil => intro b hb; cases hb
  | cons c cs ih =>
    intro b hb
    simp only [enc4Chs, List.mem_cons] at hb
    have hc := char_toNat_lt c
    rcases hb with rfl | rfl | rfl | rfl | hb
    · omega
    · omega
    · omega
    · omega
    · exact ih b hb

theorem dec4_enc4Chs (cs : List Char) : dec4 (enc4Chs cs) = some cs := by
  induction cs with
  | nil => rfl
  | cons c cs ih =>
    simp only [enc4Chs, dec4, ih, Option.map_some']
    have hb := char_toNat_lt c
    rw [show c.toNat % 256 + 256 * (c.toNat / 256 % 256) + 65536 * (c.toNat / 65536 % 256)
        + 16777216 * (c.toNat / 16777216) = c.toNat from by omega]
    rw [Char.ofNat_toNat]

theorem c0_compress_lt (s : String) : ∀ b ∈ c0.compress s, b < 256 := enc4Chs_lt s.data

theorem c0_decompress_compress (s : String) : c0.decompress (c0.compress s) = some s := by
  show (dec4 (enc4Chs s.data)).map String.mk = some s
  rw [dec4_enc4Chs]
  cases s
  rfl

-- =============================================================================
-- Claim C1: the decode chain inverts the encode chain
-- =============================================================================

/-- Claim C1: for every valid ExportPayload (the TypeScript type fixes version
to 1), the decode chain of importBoard (base64url decode, decompress, JSON
parse) applied to the encode chain of exportBoard (JSON stringify, compress,
base64url encode) returns the payload exactly — including empty boards, absent
notes or tags, and names, urls or notes containing unicode or characters that
the JSON text form must escape. The compression pair is the platform
deflate-raw stream; its lossless contract (byte outputs below 256, decompress
inverting compress) enters as hypotheses. -/
theorem decodePayload_encodePayload (cc : Codec) (p : ExportPayload)
    (hbytes : ∀ s, ∀ b ∈ cc.compress s, b < 256)
    (hround : ∀ s, cc.decompress (cc.compress s) = some s)
    (hv : p.version = 1) :
    decodePayload cc (encodePayload cc p) = some p := by
  unfold decodePayload encodePayload
  rw [fromBase64Url_toBase64Url _ (hbytes _)]
  rw [Option.some_bind, hround, Option.some_bind]
  exact parsePayload_stringify p hv

/-- Witness for C1 at a concrete unicode-and-escape-heavy payload and the
concrete lossless codec c0. -/
theorem decodePayload_encodePayload_witness :
    decodePayload c0 (encodePayload c0 pC1) = some pC1 :=
  decodePayload_encodePayload c0 pC1 c0_compress_lt c0_decompress_compress rfl

-- =============================================================================
-- Claim C10: export of a missing board
-- =============================================================================

/-- Claim C10: when no board with the given id exists, exportBoard and
exportToFile both fail by throwing the Board-not-found error; neither returns a
link, a too-large outcome, or an absent value, and neither performs any store
write (both embeddings are read-only functions of the store). -/
theorem export_missing_board (cc : Codec) (origin : String) (bid : Id) (st : Store)
    (h : getBoard bid st = none) :
    exportBoard cc origin bid st = Except.error "Board not found" ∧
    exportToFile bid st = Except.error "Board not found" := by
  constructor
  · simp only [exportBoard, h]
  · simp only [exportToFile, h]

/-- Witness for C10 on the empty store. -/
theorem export_missing_board_witness :
    exportBoard c0 "https://t/" 3 emptyStore = Except.error "Board not found" ∧
    exportToFile 3 emptyStore = Except.error "Board not found" :=
  export_missing_board c0 "https://t/" 3 emptyStore rfl

-- =============================================================================
-- Claim C4: size budget
-- =============================================================================

/-- Claim C4: for an existing board, when the encoded payload is longer than
MAX_PAYLOAD_SIZE = 8000 characters exportBoard returns the distinct too-large
success variant (never a link, never a thrown error), and when it is within the
limit exportBoard returns a share URL that carries exactly that encoded
payload. -/
theorem exportBoard_size_budget (cc : Codec) (origin : String) (bid : Id) (st : Store)
    (board : Board) (hb : getBoard bid st = some board) :
    MAX_PAYLOAD_SIZE = 8000 ∧
    (8000 < (toBase64Url (cc.compress (jsonStringifyPayload (buildPayload board.name
        (getBookmarksByBoard bid st))))).length →
      exportBoard cc origin bid st = Except.ok (ShareResult.tooLarge
        (jsonStringifyPayload (buildPayload board.name (getBookmarksByBoard bid st))))) ∧
    ((toBase64Url (cc.compress (jsonStringifyPayload (buildPayload board.name
        (getBookmarksByBoard bid st))))).length ≤ 8000 →
      exportBoard cc origin bid st = Except.ok (ShareResult.link (origin ++ "#/import/"
        ++ toBase64Url (cc.compress (jsonStringifyPayload (buildPayload board.name
          (getBookmarksByBoard bid st))))))) := by
  refine ⟨rfl, ?_, ?_⟩
  · intro h
    simp only [exportBoard, hb]
    rw [if_pos (show MAX_PAYLOAD_SIZE < (toBase64Url (cc.compress (jsonStringifyPayload
      (buildPayload board.name (getBookmarksByBoard bid st))))).length from h)]
  · intro h
    simp only [exportBoard, hb]
    rw [if_neg (show ¬ MAX_PAYLOAD_SIZE < (toBase64Url (cc.compress (jsonStringifyPayload
      (buildPayload board.name (getBookmarksByBoard bid st))))).length from by
        simp only [MAX_PAYLOAD_SIZE]
        omega)]

/-- Witness for C4: a small concrete board is exported as a link carrying its
encoded payload. -/
theorem exportBoard_size_budget_witness :
    exportBoard c0 "https://t/" 5 stC4 = Except.ok (ShareResult.link ("https://t/"
      ++ "#/import/" ++ toBase64Url (c0.compress (jsonStringifyPayload
        (buildPayload "B" (getBookmarksByBoard 5 stC4)))))) := by
  have h := exportBoard_size_budget c0 "https://t/" 5 stC4 ⟨5, "B", 0⟩ rfl
  exact h.2.2 (by decide)

-- =============================================================================
-- Claim C3: rejection of undecodable inputs (corrected)
-- =============================================================================

/-- Claim C3 (amended): for every input on which the decode chain fails or
yields a payload whose version discriminant is not 1, importBoard fails with an
error and performs no writes — the store is returned unchanged. (Not every
truncation, byte flip or foreign-alphabet re-encoding falls into this class:
the counterexample shows a standard-alphabet re-encoding of a valid payload
that decodes cleanly and imports successfully.) -/
theorem importBoard_no_writes_on_undecodable (cc : Codec) (payload : String)
    (gen : Nat → Id) (now : Timestamp) (st : Store)
    (h : ∀ p, decodePayload cc payload = some p → p.version ≠ 1) :
    (importBoard cc payload gen now st).2 = st ∧
    ∃ e, (importBoard cc payload gen now st).1 = Except.error e := by
  cases hb : fromBase64Url payload with
  | none =>
    exact ⟨by simp [importBoard, hb], ⟨"InvalidCharacterError", by simp [importBoard, hb]⟩⟩
  | some bytes =>
    cases hd : cc.decompress bytes with
    | none =>
      exact ⟨by simp [importBoard, hb, hd],
        ⟨"DecompressionError", by simp [importBoard, hb, hd]⟩⟩
    | some json =>
      cases hp : parsePayload json with
      | none =>
        exact ⟨by simp [importBoard, hb, hd, hp],
          ⟨"SyntaxError", by simp [importBoard, hb, hd, hp]⟩⟩
      | some data =>
        have hv : data.version ≠ 1 := h data (by simp [decodePayload, hb, hd, hp])
        exact ⟨by simp [importBoard, hb, hd, hp, importPayloadBody, if_pos hv],
          ⟨"Unsupported export version",
            by simp [importBoard, hb, hd, hp, importPayloadBody, if_pos hv]⟩⟩

/-- Witness for the amended C3 theorem: a payload carrying version 2 is
rejected with no writes. -/
theorem importBoard_no_writes_on_undecodable_witness :
    (importBoard c0 sC3w (fun k => k) 0 emptyStore).2 = emptyStore ∧
    ∃ e, (importBoard c0 sC3w (fun k => k) 0 emptyStore).1 = Except.error e := by
  refine importBoard_no_writes_on_undecodable c0 sC3w (fun k => k) 0 emptyStore ?_
  intro p hp
  have hdec : decodePayload c0 sC3w = some ⟨"x", [], 2⟩ := by decide
  rw [hdec] at hp
  cases hp
  decide

/-- Counterexample to claim C3 as stated: e1C3 is the same valid payload
re-encoded with the standard (non-base64url) alphabet — it contains a slash and
an equals sign, which the base64url alphabet excludes — yet importBoard accepts
it, creates a board, and leaves the board count increased rather than failing
with MalformedPayload and writing nothing. -/
theorem importBoard_accepts_foreign_alphabet :
    ('/' ∈ e1C3.data ∧ '=' ∈ e1C3.data ∧ '/' ∉ e0C3.data ∧ '=' ∉ e0C3.data) ∧
    (importBoard c0 e0C3 (fun k => k) 0 emptyStore).1 = Except.ok 0 ∧
    (importBoard c0 e1C3 (fun k => k) 0 emptyStore).1 = Except.ok 0 ∧
    (importBoard c0 e1C3 (fun k => k) 0 emptyStore).2.boards.length
      = emptyStore.boards.length + 1 := by
  refine ⟨by decide, rfl, rfl, rfl⟩

-- =============================================================================
-- Claim C2: import atomicity (code bug)
-- =============================================================================

/-- Claim C2 is violated by the code: when the creation of the second decoded
bookmark fails (here through an id collision in store.add), importFromFile
throws, but the already-created Board and the first Bookmark remain visible in
the Entity Store — nothing is rolled back and the partial import persists. -/
theorem import_partial_board_remains :
    (∃ e, rC2.1 = Except.error e) ∧
    rC2.2.boards = [⟨0, "B", 0⟩] ∧
    rC2.2.bookmarks = [⟨1, "https://a/", 0, 0, none, none⟩] := by
  refine ⟨⟨"ConstraintError", rfl⟩, rfl, rfl⟩

-- =============================================================================
-- Claim C7: URL validation before persistence (code bug)
-- =============================================================================

/-- Claim C7 is violated by the code: the import path performs no URL
validation, so importFromFile persists a Bookmark whose url does not parse as
an absolute URL (the UI dialog path is the only one that validates). -/
theorem import_stores_unparseable_url :
    urlParses "not a url" = false ∧
    rC7.1 = Except.ok 0 ∧
    rC7.2.bookmarks = [⟨1, "not a url", 0, 0, none, none⟩] := by
  refine ⟨by decide, rfl, rfl⟩

end Tacktile
